import Mathlib

/-!
Shallow embedding of `github_downloader.py` (GitHub-Multi-Downloader).
External effects (the HTTP listing call, the subprocesses of the
version-control tool, the filesystem) are made explicit: subprocess
outcomes are passed in as values, the filesystem is the list of existing
directory paths, and the observable behaviour of a run is a list of
events together with a process exit code.
-/

/-- Python str.strip on a character list: whitespace removed from both ends. -/
def trimChars (l : List Char) : List Char :=
  ((l.dropWhile Char.isWhitespace).reverse.dropWhile Char.isWhitespace).reverse

/-- Python str.strip lifted to strings. -/
def pyStrip (s : String) : String :=
  String.mk (trimChars s.data)

/-- Helper for the comma split performed by selection.split(",") . -/
def splitCommasAux : List Char → List Char → List (List Char)
  | [], acc => [acc.reverse]
  | c :: rest, acc =>
    if c = ',' then acc.reverse :: splitCommasAux rest []
    else splitCommasAux rest (c :: acc)

/-- Python selection.split(",") on a character list. -/
def splitCommas (l : List Char) : List (List Char) :=
  splitCommasAux l []

/-- Value of an ASCII digit character. -/
def digitVal (c : Char) : Nat :=
  c.toNat - 48

/-- Digit-string tail accepted by Python int(): decimal digits with single
underscores allowed between digits.  The flag records whether the
previously consumed character was an underscore. -/
def pyDigitsAux : List Char → Nat → Bool → Option Nat
  | [], acc, lastU => if lastU then none else some acc
  | c :: rest, acc, _lastU =>
    if c.isDigit then pyDigitsAux rest (acc * 10 + digitVal c) false
    else if c = '_' then (if _lastU then none else pyDigitsAux rest acc true)
    else none

/-- Unsigned decimal literal as accepted by Python int(): nonempty, must
start with a digit. -/
def parseUnsigned : List Char → Option Nat
  | [] => none
  | c :: rest => if c.isDigit then pyDigitsAux rest (digitVal c) false else none

/-- Python int(s) on a decimal string: surrounding whitespace, an optional
sign, then digits; none models the ValueError. -/
def pyIntChars (l : List Char) : Option Int :=
  match trimChars l with
  | '+' :: rest => (parseUnsigned rest).map Int.ofNat
  | '-' :: rest => (parseUnsigned rest).map (fun n => -(n : Int))
  | rest => (parseUnsigned rest).map Int.ofNat

/-- Embedding of the selection parse inside download_all_repos:
the list comprehension int(idx.strip()) over selection.split(",") . -/
def parse_selection (s : String) : Option (List Int) :=
  (splitCommas s.data).mapM (fun tok => pyIntChars (trimChars tok))

/-- Embedding of the parse followed by the bounds validation
all(1 <= idx <= len(repos)); none models the caught ValueError path. -/
def select_indices (s : String) (n : Nat) : Option (List Int) :=
  match parse_selection s with
  | none => none
  | some l => if l.all (fun i => decide (1 ≤ i ∧ i ≤ (n : Int))) then some l else none

/-- Substring test on character lists: the model of the Python membership
operator on strings. -/
def containsSub (hay pat : List Char) : Bool :=
  (List.range (hay.length + 1)).any (fun i => pat.isPrefixOf (hay.drop i))

/-- Python substring containment on strings. -/
def strContains (hay pat : String) : Bool :=
  containsSub hay.data pat.data

/-- Python s.endswith(c) for a one-character suffix. -/
def endsWithChar (s : String) (c : Char) : Bool :=
  match s.data.reverse with
  | [] => false
  | x :: _ => x == c

/-- os.path.join for the two-component paths this program builds. -/
def joinPath (a b : String) : String :=
  a ++ "/" ++ b

/-- Python list indexing, including the negative-index convention; none
models an IndexError. -/
def pyGet {α : Type} (l : List α) (i : Int) : Option α :=
  if 0 ≤ i then l[i.toNat]?
  else if 0 ≤ i + (l.length : Int) then l[(i + (l.length : Int)).toNat]?
  else none

/-- Repository record of the listing response, restricted to the fields
the orchestration reads. -/
structure Repo where
  name : String
  clone_url : String
deriving DecidableEq, Repr

/-- Observable events of a run: console reports and subprocess
invocations, in order. -/
inductive Event where
  | dirError (dir : String)
  | notFoundError (username : String)
  | genericError
  | noRepos (username : String)
  | invalidSelection
  | ignoreUpdated (pat : String)
  | cloneInvoked (url : String) (dir : String)
  | skipNotice (name : String)
  | summary (count : Nat) (dir : String)
deriving DecidableEq, Repr

/-- Record returned by get_repo_status on success. -/
structure RepoStatus where
  branch : String
  commit : String
  date : String
  status : String
deriving DecidableEq, Repr

/-- Entry of os.listdir(base_dir) together with its os.path.isdir test. -/
structure DirEntry where
  name : String
  isDir : Bool
deriving DecidableEq, Repr

/-- Outcome of the listing call get_user_repos: the parsed JSON array, an
HTTPError with its status code (from raise_for_status), or any other
exception of the request. -/
inductive ListingResult where
  | success (repos : List Repo)
  | httpError (code : Nat)
  | otherError
deriving DecidableEq, Repr

/-- State and trace of the clone loop: resulting filesystem, events in
order, and whether an IndexError escaped the loop. -/
structure CloneRun where
  fs : List String
  events : List Event
  raised : Bool
deriving DecidableEq, Repr

/-- Embedding of update_gitignore.  Inputs: whether the current working
directory is inside a work tree, the computed relative path, and the
current ignore-file content (none = file absent).  Output: the resulting
content and whether the file was written. -/
def update_gitignore (inWorkTree : Bool) (relPath : String) (content : Option String) :
    Option String × Bool :=
  if inWorkTree then
    let pat := relPath ++ "/"
    let c := content.getD ""
    if strContains c pat then (content, false)
    else
      (some (c ++ (if c ≠ "" ∧ endsWithChar c '\n' = false then "\n" else "") ++ pat ++ "\n"),
        true)
  else (content, false)

/-- Embedding of get_repo_status: the three query outcomes are passed in;
an error models a CalledProcessError (non-zero exit of the subprocess). -/
def get_repo_status (branchQ commitQ dateQ : Except Unit String) : Option RepoStatus :=
  match branchQ with
  | .error _ => none
  | .ok b =>
    match commitQ with
    | .error _ => none
    | .ok c =>
      match dateQ with
      | .error _ => none
      | .ok d => some ⟨pyStrip b, pyStrip c, pyStrip d, "clean"⟩

/-- Embedding of update_repo.  statusQ is the porcelain status query
(error = CalledProcessError message), pull is the pull subprocess's exit
code and standard error text.  Result: ((success, message), pull invoked?). -/
def update_repo (statusQ : Except String String) (pull : Int × String) :
    (Bool × String) × Bool :=
  match statusQ with
  | .error e => ((false, "Error updating repository: " ++ e), false)
  | .ok out =>
    if pyStrip out ≠ "" then ((false, "Repository has uncommitted changes"), false)
    else if pull.1 = 0 then ((true, "Successfully updated"), true)
    else ((false, "Update failed: " ++ pull.2), true)

/-- Embedding of download_selected_repos.  cloneExit gives the discarded
os.system exit status of each clone invocation; cloneCreates tells whether
the external clone materialises the target directory (true for a
successful clone).  The filesystem is the list of existing paths. -/
def download_selected_repos (cloneExit : String → String → Int)
    (cloneCreates : String → String → Bool) (repos : List Repo)
    (indices : List Int) (base : String) (fs : List String) : CloneRun :=
  match indices with
  | [] => ⟨fs, [], false⟩
  | i :: rest =>
    match pyGet repos (i - 1) with
    | none => ⟨fs, [], true⟩
    | some repo =>
      let target := joinPath base repo.name
      if fs.contains target then
        let r := download_selected_repos cloneExit cloneCreates repos rest base fs
        ⟨r.fs, .skipNotice repo.name :: r.events, r.raised⟩
      else
        let _code := cloneExit repo.clone_url target
        let fs1 := if cloneCreates repo.clone_url target then target :: fs else fs
        let r := download_selected_repos cloneExit cloneCreates repos rest base fs1
        ⟨r.fs, .cloneInvoked repo.clone_url target :: r.events, r.raised⟩

/-- Inputs of one download_all_repos run, with every external outcome made
explicit. -/
structure FlowInput where
  username : String
  savePath : String
  mkdirOk : Bool
  listing : ListingResult
  confirmAll : Bool
  selection : String
  inWorkTree : Bool
  relPath : String
  ignoreContent : Option String
  fs : List String
  cloneExit : String → String → Int
  cloneCreates : String → String → Bool

/-- Observable outcome of a download_all_repos run. -/
structure FlowOutput where
  events : List Event
  exitCode : Nat
  selected : Option (List Int)
  fs : List String
  ignore : Option String
deriving DecidableEq, Repr

/-- Selection produced by answering yes: list(range(1, len(repos) + 1)). -/
def allIndices (n : Nat) : List Int :=
  (List.range n).map (fun k : Nat => (k : Int) + 1)

/-- Tail of download_all_repos once a selection was determined (none is the
invalid-selection path, which reports and returns). -/
def downloadWithRepos (inp : FlowInput) (baseDir : String) (repos : List Repo) :
    Option (List Int) → FlowOutput
  | none => ⟨[.invalidSelection], 0, none, inp.fs, inp.ignoreContent⟩
  | some indices =>
    let gi := update_gitignore inp.inWorkTree inp.relPath inp.ignoreContent
    let ievs := if gi.2 then [Event.ignoreUpdated (inp.relPath ++ "/")] else []
    let run := download_selected_repos inp.cloneExit inp.cloneCreates repos indices baseDir inp.fs
    if run.raised then ⟨ievs ++ run.events ++ [.genericError], 1, some indices, run.fs, gi.1⟩
    else ⟨ievs ++ run.events ++ [.summary indices.length baseDir], 0, some indices, run.fs, gi.1⟩

/-- Branch of download_all_repos on the listing outcome. -/
def downloadWithListing (inp : FlowInput) (baseDir : String) :
    ListingResult → FlowOutput
  | .httpError code =>
    if code = 404 then ⟨[.notFoundError inp.username], 1, none, inp.fs, inp.ignoreContent⟩
    else ⟨[.genericError], 1, none, inp.fs, inp.ignoreContent⟩
  | .otherError => ⟨[.genericError], 1, none, inp.fs, inp.ignoreContent⟩
  | .success repos =>
    if repos.isEmpty then ⟨[.noRepos inp.username], 0, none, inp.fs, inp.ignoreContent⟩
    else
      downloadWithRepos inp baseDir repos
        (if inp.confirmAll then some (allIndices repos.length)
         else select_indices inp.selection repos.length)

/-- Embedding of download_all_repos: directory creation, listing, table,
confirmation and selection, ignore-file update, clone loop, summary, and
exit code. -/
def download_all_repos (inp : FlowInput) : FlowOutput :=
  if inp.mkdirOk then
    downloadWithListing inp (joinPath inp.savePath inp.username) inp.listing
  else ⟨[.dirError (joinPath inp.savePath inp.username)], 1, none, inp.fs, inp.ignoreContent⟩

/-- Status table computed by update_all_repos: one pair per directory entry
of the base directory, carrying get_repo_status's result for it. -/
def repos_info (entries : List DirEntry) (statusOf : String → Option RepoStatus) :
    List (String × Option RepoStatus) :=
  (entries.filter (fun e => e.isDir)).map (fun e => (e.name, statusOf e.name))

/-- Names on which update_all_repos invokes update_repo: nothing when the
confirmation is declined, otherwise exactly the listed directory entries
whose status inspection succeeded. -/
def update_all_repos (confirm : Bool) (entries : List DirEntry)
    (statusOf : String → Option RepoStatus) : List String :=
  if confirm then
    ((repos_info entries statusOf).filter (fun p => p.2.isSome)).map (fun p => p.1)
  else []

/-- Count of clone subcommand invocations in an event trace. -/
def countClones (evs : List Event) : Nat :=
  evs.countP (fun e => match e with | .cloneInvoked _ _ => true | _ => false)

/-- Test for a clone invocation targeting a given directory. -/
def isCloneTo (t : String) : Event → Bool
  | .cloneInvoked _ d => d == t
  | _ => false

/-- Count of clone invocations targeting a given directory. -/
def countCloneDir (t : String) (evs : List Event) : Nat :=
  evs.countP (isCloneTo t)

/-- Target directories of the clone invocations of a trace, in order. -/
def cloneDirs (evs : List Event) : List String :=
  evs.filterMap (fun e => match e with | .cloneInvoked _ d => some d | _ => none)

theorem contains_eq_mem (l : List String) (t : String) : l.contains t = true ↔ t ∈ l := by
  simp [List.contains, List.elem_iff]

theorem dsr_nil {ce : String → String → Int} {cc : String → String → Bool}
    {repos : List Repo} {base : String} {fs : List String} :
    download_selected_repos ce cc repos [] base fs = ⟨fs, [], false⟩ := rfl

theorem dsr_cons_none {ce : String → String → Int} {cc : String → String → Bool}
    {repos : List Repo} {base : String} {fs : List String} {i : Int} {rest : List Int}
    (h : pyGet repos (i - 1) = none) :
    download_selected_repos ce cc repos (i :: rest) base fs = ⟨fs, [], true⟩ := by
  simp [download_selected_repos, h]

theorem dsr_cons_skip {ce : String → String → Int} {cc : String → String → Bool}
    {repos : List Repo} {base : String} {fs : List String} {i : Int} {rest : List Int}
    {repo : Repo} (h : pyGet repos (i - 1) = some repo)
    (hc : joinPath base repo.name ∈ fs) :
    download_selected_repos ce cc repos (i :: rest) base fs =
      ⟨(download_selected_repos ce cc repos rest base fs).fs,
        .skipNotice repo.name :: (download_selected_repos ce cc repos rest base fs).events,
        (download_selected_repos ce cc repos rest base fs).raised⟩ := by
  simp [download_selected_repos, h, hc]

theorem dsr_cons_clone {ce : String → String → Int} {cc : String → String → Bool}
    {repos : List Repo} {base : String} {fs : List String} {i : Int} {rest : List Int}
    {repo : Repo} (h : pyGet repos (i - 1) = some repo)
    (hc : joinPath base repo.name ∉ fs) :
    download_selected_repos ce cc repos (i :: rest) base fs =
      ⟨(download_selected_repos ce cc repos rest base
          (if cc repo.clone_url (joinPath base repo.name)
           then joinPath base repo.name :: fs else fs)).fs,
        .cloneInvoked repo.clone_url (joinPath base repo.name) ::
          (download_selected_repos ce cc repos rest base
            (if cc repo.clone_url (joinPath base repo.name)
             then joinPath base repo.name :: fs else fs)).events,
        (download_selected_repos ce cc repos rest base
          (if cc repo.clone_url (joinPath base repo.name)
           then joinPath base repo.name :: fs else fs)).raised⟩ := by
  simp [download_selected_repos, h, hc]

theorem pyGet_pos {α : Type} (l : List α) (i : Int) (h1 : 1 ≤ i) (h2 : i ≤ (l.length : Int)) :
    ∃ a, pyGet l (i - 1) = some a := by
  have h0 : 0 ≤ i - 1 := by omega
  have hlt : (i - 1).toNat < l.length := by omega
  exact ⟨l[(i - 1).toNat], by simp [pyGet, h0, List.getElem?_eq_getElem hlt]⟩

theorem cloneDirs_skip (n : String) (evs : List Event) :
    cloneDirs (.skipNotice n :: evs) = cloneDirs evs := rfl

theorem cloneDirs_clone (u d : String) (evs : List Event) :
    cloneDirs (.cloneInvoked u d :: evs) = d :: cloneDirs evs := rfl

theorem dsr_fs_mono (ce : String → String → Int) (cc : String → String → Bool)
    (repos : List Repo) (base : String) :
    ∀ (idxs : List Int) (fs : List String) (t : String), t ∈ fs →
      t ∈ (download_selected_repos ce cc repos idxs base fs).fs := by
  intro idxs
  induction idxs with
  | nil => intro fs t ht; simpa [dsr_nil] using ht
  | cons i rest ih =>
    intro fs t ht
    cases h : pyGet repos (i - 1) with
    | none => simpa [dsr_cons_none h] using ht
    | some repo =>
      by_cases hc : joinPath base repo.name ∈ fs
      · rw [dsr_cons_skip h hc]
        exact ih fs t ht
      · rw [dsr_cons_clone h hc]
        apply ih
        by_cases hcc : cc repo.clone_url (joinPath base repo.name) <;> simp [hcc, ht]

theorem dsr_fs_mem (ce : String → String → Int) (cc : String → String → Bool)
    (repos : List Repo) (base : String) :
    ∀ (idxs : List Int) (fs : List String) (t : String),
      t ∈ (download_selected_repos ce cc repos idxs base fs).fs →
      t ∈ fs ∨ t ∈ cloneDirs (download_selected_repos ce cc repos idxs base fs).events := by
  intro idxs
  induction idxs with
  | nil => intro fs t ht; left; simpa [dsr_nil] using ht
  | cons i rest ih =>
    intro fs t ht
    cases h : pyGet repos (i - 1) with
    | none =>
      rw [dsr_cons_none h] at ht ⊢
      left; exact ht
    | some repo =>
      by_cases hc : joinPath base repo.name ∈ fs
      · rw [dsr_cons_skip h hc] at ht ⊢
        simpa [cloneDirs_skip] using ih fs t ht
      · rw [dsr_cons_clone h hc] at ht ⊢
        simp only [cloneDirs_clone]
        rcases ih _ t ht with hin | hin
        · by_cases hcc : cc repo.clone_url (joinPath base repo.name)
          · simp [hcc] at hin
            rcases hin with rfl | hin
            · right; exact List.mem_cons_self _ _
            · left; exact hin
          · simp [hcc] at hin
            left; exact hin
        · right; exact List.mem_cons_of_mem _ hin

theorem dsr_clone_spec (ce : String → String → Int) (cc : String → String → Bool)
    (repos : List Repo) (base : String) (hcc : ∀ u d, cc u d = true) :
    ∀ (idxs : List Int) (fs : List String),
      (cloneDirs (download_selected_repos ce cc repos idxs base fs).events).Nodup ∧
      ∀ t ∈ cloneDirs (download_selected_repos ce cc repos idxs base fs).events,
        t ∉ fs ∧ t ∈ (download_selected_repos ce cc repos idxs base fs).fs := by
  intro idxs
  induction idxs with
  | nil => intro fs; simp [dsr_nil, cloneDirs]
  | cons i rest ih =>
    intro fs
    cases h : pyGet repos (i - 1) with
    | none => rw [dsr_cons_none h]; simp [cloneDirs]
    | some repo =>
      by_cases hc : joinPath base repo.name ∈ fs
      · rw [dsr_cons_skip h hc]
        simpa [cloneDirs_skip] using ih fs
      · rw [dsr_cons_clone h hc]
        rw [hcc repo.clone_url (joinPath base repo.name)]
        simp only [if_true, cloneDirs_clone]
        obtain ⟨hnd, hall⟩ := ih (joinPath base repo.name :: fs)
        constructor
        · refine List.nodup_cons.mpr ⟨?_, hnd⟩
          intro hmem
          exact (hall _ hmem).1 (List.mem_cons_self _ _)
        · intro t ht
          rcases List.mem_cons.mp ht with rfl | ht'
          · exact ⟨hc, dsr_fs_mono ce cc repos base rest _ _ (List.mem_cons_self _ _)⟩
          · obtain ⟨hnotin, hfin⟩ := hall t ht'
            exact ⟨fun hmo => hnotin (List.mem_cons_of_mem _ hmo), hfin⟩

theorem dsr_targets (ce : String → String → Int) (cc : String → String → Bool)
    (repos : List Repo) (base : String) (hcc : ∀ u d, cc u d = true) :
    ∀ (idxs : List Int) (fs : List String),
      (∀ k ∈ idxs, ∃ r, pyGet repos (k - 1) = some r) →
      ∀ i ∈ idxs, ∀ repo, pyGet repos (i - 1) = some repo →
        joinPath base repo.name ∈ (download_selected_repos ce cc repos idxs base fs).fs := by
  intro idxs
  induction idxs with
  | nil => intro fs _ i hi; exact absurd hi (List.not_mem_nil _)
  | cons j rest ih =>
    intro fs hsome i hi repo hrepo
    obtain ⟨repo0, hj⟩ := hsome j (List.mem_cons_self _ _)
    have hrest : ∀ k ∈ rest, ∃ r, pyGet repos (k - 1) = some r :=
      fun k hk => hsome k (List.mem_cons_of_mem _ hk)
    by_cases hc : joinPath base repo0.name ∈ fs
    · rw [dsr_cons_skip hj hc]
      rcases List.mem_cons.mp hi with rfl | hi'
      · rw [hj] at hrepo
        injection hrepo with he
        subst he
        exact dsr_fs_mono ce cc repos base rest fs _ hc
      · exact ih fs hrest i hi' repo hrepo
    · rw [dsr_cons_clone hj hc]
      rw [hcc repo0.clone_url (joinPath base repo0.name)]
      simp only [if_true]
      rcases List.mem_cons.mp hi with rfl | hi'
      · rw [hj] at hrepo
        injection hrepo with he
        subst he
        exact dsr_fs_mono ce cc repos base rest _ _ (List.mem_cons_self _ _)
      · exact ih _ hrest i hi' repo hrepo

theorem dsr_all_mem (ce : String → String → Int) (cc : String → String → Bool)
    (repos : List Repo) (base : String) :
    ∀ (idxs : List Int) (fs : List String),
      (∀ i ∈ idxs, ∃ repo, pyGet repos (i - 1) = some repo ∧ joinPath base repo.name ∈ fs) →
      (download_selected_repos ce cc repos idxs base fs).fs = fs ∧
      (download_selected_repos ce cc repos idxs base fs).raised = false ∧
      ∀ e ∈ (download_selected_repos ce cc repos idxs base fs).events,
        ∃ n, e = Event.skipNotice n := by
  intro idxs
  induction idxs with
  | nil => intro fs _; simp [dsr_nil]
  | cons j rest ih =>
    intro fs hall
    obtain ⟨repo0, hj, hc⟩ := hall j (List.mem_cons_self _ _)
    rw [dsr_cons_skip hj hc]
    obtain ⟨hfs, hraised, hskips⟩ :=
      ih fs (fun i hi => hall i (List.mem_cons_of_mem _ hi))
    refine ⟨hfs, hraised, ?_⟩
    intro e he
    rcases List.mem_cons.mp he with rfl | he'
    · exact ⟨repo0.name, rfl⟩
    · exact hskips e he'

theorem dsr_complete (ce : String → String → Int) (cc : String → String → Bool)
    (repos : List Repo) (base : String) :
    ∀ (idxs : List Int) (fs : List String),
      (∀ i ∈ idxs, ∃ r, pyGet repos (i - 1) = some r) →
      (download_selected_repos ce cc repos idxs base fs).raised = false ∧
      (download_selected_repos ce cc repos idxs base fs).events.length = idxs.length := by
  intro idxs
  induction idxs with
  | nil => intro fs _; simp [dsr_nil]
  | cons j rest ih =>
    intro fs hsome
    obtain ⟨repo0, hj⟩ := hsome j (List.mem_cons_self _ _)
    have hrest : ∀ k ∈ rest, ∃ r, pyGet repos (k - 1) = some r :=
      fun k hk => hsome k (List.mem_cons_of_mem _ hk)
    by_cases hc : joinPath base repo0.name ∈ fs
    · rw [dsr_cons_skip hj hc]
      obtain ⟨h1, h2⟩ := ih fs hrest
      simp [h1, h2]
    · rw [dsr_cons_clone hj hc]
      obtain ⟨h1, h2⟩ := ih (if cc repo0.clone_url (joinPath base repo0.name)
        then joinPath base repo0.name :: fs else fs) hrest
      simp [h1, h2]

theorem dsr_cloneExit_irrel (ce1 ce2 : String → String → Int) (cc : String → String → Bool)
    (repos : List Repo) (base : String) :
    ∀ (idxs : List Int) (fs : List String),
      download_selected_repos ce1 cc repos idxs base fs =
        download_selected_repos ce2 cc repos idxs base fs := by
  intro idxs
  induction idxs with
  | nil => intro fs; rfl
  | cons j rest ih =>
    intro fs
    cases hj : pyGet repos (j - 1) with
    | none => rw [dsr_cons_none hj, dsr_cons_none hj]
    | some repo =>
      by_cases hc : joinPath base repo.name ∈ fs
      · rw [dsr_cons_skip hj hc, dsr_cons_skip hj hc, ih fs]
      · rw [dsr_cons_clone hj hc, dsr_cons_clone hj hc, ih]

theorem dsr_append (ce : String → String → Int) (cc : String → String → Bool)
    (repos : List Repo) (base : String) :
    ∀ (l1 l2 : List Int) (fs : List String),
      (∀ i ∈ l1, ∃ r, pyGet repos (i - 1) = some r) →
      download_selected_repos ce cc repos (l1 ++ l2) base fs =
        ⟨(download_selected_repos ce cc repos l2 base
            (download_selected_repos ce cc repos l1 base fs).fs).fs,
          (download_selected_repos ce cc repos l1 base fs).events ++
            (download_selected_repos ce cc repos l2 base
              (download_selected_repos ce cc repos l1 base fs).fs).events,
          (download_selected_repos ce cc repos l2 base
            (download_selected_repos ce cc repos l1 base fs).fs).raised⟩ := by
  intro l1
  induction l1 with
  | nil => intro l2 fs _; simp [dsr_nil]
  | cons j rest ih =>
    intro l2 fs hsome
    obtain ⟨repo0, hj⟩ := hsome j (List.mem_cons_self _ _)
    have hrest : ∀ k ∈ rest, ∃ r, pyGet repos (k - 1) = some r :=
      fun k hk => hsome k (List.mem_cons_of_mem _ hk)
    by_cases hc : joinPath base repo0.name ∈ fs
    · rw [List.cons_append, dsr_cons_skip hj hc, dsr_cons_skip hj hc, ih l2 fs hrest]
      rfl
    · rw [List.cons_append, dsr_cons_clone hj hc, dsr_cons_clone hj hc, ih l2 _ hrest]
      rfl

theorem dsr_event_kinds (ce : String → String → Int) (cc : String → String → Bool)
    (repos : List Repo) (base : String) :
    ∀ (idxs : List Int) (fs : List String),
      ∀ e ∈ (download_selected_repos ce cc repos idxs base fs).events,
        (∃ u d, e = Event.cloneInvoked u d) ∨ ∃ n, e = Event.skipNotice n := by
  intro idxs
  induction idxs with
  | nil => intro fs e he; simp [dsr_nil] at he
  | cons j rest ih =>
    intro fs e he
    cases hj : pyGet repos (j - 1) with
    | none => rw [dsr_cons_none hj] at he; simp at he
    | some repo =>
      by_cases hc : joinPath base repo.name ∈ fs
      · rw [dsr_cons_skip hj hc] at he
        rcases List.mem_cons.mp he with rfl | he'
        · exact Or.inr ⟨repo.name, rfl⟩
        · exact ih fs e he'
      · rw [dsr_cons_clone hj hc] at he
        rcases List.mem_cons.mp he with rfl | he'
        · exact Or.inl ⟨repo.clone_url, joinPath base repo.name, rfl⟩
        · exact ih _ e he'

theorem countCloneDir_eq_count (t : String) :
    ∀ evs : List Event, countCloneDir t evs = (cloneDirs evs).count t := by
  intro evs
  induction evs with
  | nil => rfl
  | cons e rest ih =>
    simp only [countCloneDir, cloneDirs] at ih ⊢
    cases e <;> simp [List.countP_cons, List.count_cons, List.filterMap_cons, isCloneTo, ih]

theorem countCloneDir_append (t : String) (l1 l2 : List Event) :
    countCloneDir t (l1 ++ l2) = countCloneDir t l1 + countCloneDir t l2 := by
  simp [countCloneDir, List.countP_append]

theorem countClones_of_skips (evs : List Event)
    (h : ∀ e ∈ evs, ∃ n, e = Event.skipNotice n) : countClones evs = 0 := by
  rw [countClones, List.countP_eq_zero]
  intro e he
  obtain ⟨n, rfl⟩ := h e he
  simp

theorem countCloneDir_of_skips (t : String) (evs : List Event)
    (h : ∀ e ∈ evs, ∃ n, e = Event.skipNotice n) : countCloneDir t evs = 0 := by
  rw [countCloneDir, List.countP_eq_zero]
  intro e he
  obtain ⟨n, rfl⟩ := h e he
  simp [isCloneTo]

theorem string_data_inj {a b : String} (h : a.data = b.data) : a = b := by
  cases a; cases b; exact congrArg String.mk h

theorem string_data_append (a b : String) : (a ++ b).data = a.data ++ b.data := by
  cases a; cases b; rfl

theorem containsSub_iff (hay pat : List Char) :
    containsSub hay pat = true ↔ ∃ pre suf, hay = pre ++ pat ++ suf := by
  constructor
  · intro h
    rw [containsSub, List.any_eq_true] at h
    obtain ⟨i, _hi, hpref⟩ := h
    rw [ List.isPrefixOf_iff_prefix] at hpref
    obtain ⟨suf, hsuf⟩ := hpref
    refine ⟨hay.take i, suf, ?_⟩
    rw [List.append_assoc, hsuf, List.take_append_drop]
  · rintro ⟨pre, suf, rfl⟩
    rw [containsSub, List.any_eq_true]
    refine ⟨pre.length, ?_, ?_⟩
    · rw [List.mem_range, List.length_append, List.length_append]
      omega
    · rw [ List.isPrefixOf_iff_prefix, List.append_assoc, List.drop_left]
      exact ⟨suf, rfl⟩

theorem strContains_iff (hay pat : String) :
    strContains hay pat = true ↔ ∃ pre suf : String, hay = pre ++ pat ++ suf := by
  rw [strContains, containsSub_iff]
  constructor
  · rintro ⟨pre, suf, h⟩
    refine ⟨⟨pre⟩, ⟨suf⟩, string_data_inj ?_⟩
    rw [string_data_append, string_data_append]
    exact h
  · rintro ⟨pre, suf, rfl⟩
    exact ⟨pre.data, suf.data, by rw [string_data_append, string_data_append]⟩

theorem endsWithChar_nl_iff (s : String) :
    endsWithChar s '\n' = true ↔ ∃ w : String, s = w ++ "\n" := by
  constructor
  · intro h
    rw [endsWithChar] at h
    cases hr : s.data.reverse with
    | nil => rw [hr] at h; cases h
    | cons x t =>
      rw [hr] at h
      simp only [beq_iff_eq] at h
      subst h
      refine ⟨⟨t.reverse⟩, string_data_inj ?_⟩
      rw [string_data_append]
      have hs : s.data = (s.data.reverse).reverse := (List.reverse_reverse _).symm
      rw [hs, hr, List.reverse_cons]
  · rintro ⟨w, rfl⟩
    rw [endsWithChar, string_data_append]
    have : ("\n" : String).data = ['\n'] := rfl
    rw [this, List.reverse_append]
    simp

theorem select_indices_none_of (s : String) (n : Nat)
    (h : parse_selection s = none ∨
      ∃ l, parse_selection s = some l ∧ ∃ i ∈ l, ¬(1 ≤ i ∧ i ≤ (n : Int))) :
    select_indices s n = none := by
  rcases h with h | ⟨l, hl, i, hi, hbad⟩
  · simp only [select_indices, h]
  · simp only [select_indices, hl]
    have hall : l.all (fun i => decide (1 ≤ i ∧ i ≤ (n : Int))) = false := by
      rw [List.all_eq_false]
      exact ⟨i, hi, by simpa using hbad⟩
    rw [hall]
    rfl

theorem select_indices_sound (s : String) (n : Nat) (l : List Int)
    (h : select_indices s n = some l) :
    ∀ i ∈ l, 1 ≤ i ∧ i ≤ (n : Int) := by
  cases hp : parse_selection s with
  | none => simp only [select_indices, hp] at h; cases h
  | some l0 =>
    simp only [select_indices, hp] at h
    by_cases hall : l0.all (fun i => decide (1 ≤ i ∧ i ≤ (n : Int))) = true
    · rw [if_pos hall] at h
      injection h with he
      subst he
      intro i hi
      simpa using List.all_eq_true.mp hall i hi
    · rw [if_neg hall] at h
      cases h

theorem allIndices_length (n : Nat) : (allIndices n).length = n := by
  rw [allIndices, List.length_map, List.length_range]

theorem allIndices_getElem (n k : Nat) (h : k < n) :
    (allIndices n)[k]? = some ((k : Int) + 1) := by
  rw [allIndices, List.getElem?_map, List.getElem?_range h]
  rfl

theorem allIndices_mem (n : Nat) : ∀ i ∈ allIndices n, 1 ≤ i ∧ i ≤ (n : Int) := by
  intro i hi
  rw [allIndices, List.mem_map] at hi
  obtain ⟨k, hk, rfl⟩ := hi
  rw [List.mem_range] at hk
  omega

theorem download_all_repos_ok {inp : FlowInput} (h : inp.mkdirOk = true) :
    download_all_repos inp =
      downloadWithListing inp (joinPath inp.savePath inp.username) inp.listing := by
  simp [download_all_repos, h]

theorem download_all_repos_mkdir_fail {inp : FlowInput} (h : inp.mkdirOk = false) :
    download_all_repos inp =
      ⟨[.dirError (joinPath inp.savePath inp.username)], 1, none, inp.fs, inp.ignoreContent⟩ := by
  simp [download_all_repos, h]

theorem dwl_success_nonempty {inp : FlowInput} {baseDir : String} {repos : List Repo}
    (h : repos ≠ []) :
    downloadWithListing inp baseDir (.success repos) =
      downloadWithRepos inp baseDir repos
        (if inp.confirmAll then some (allIndices repos.length)
         else select_indices inp.selection repos.length) := by
  simp [downloadWithListing, h]

theorem dwr_none {inp : FlowInput} {baseDir : String} {repos : List Repo} :
    downloadWithRepos inp baseDir repos none =
      ⟨[.invalidSelection], 0, none, inp.fs, inp.ignoreContent⟩ := rfl

theorem dwr_selected {inp : FlowInput} {baseDir : String} {repos : List Repo}
    {indices : List Int} :
    (downloadWithRepos inp baseDir repos (some indices)).selected = some indices := by
  rw [downloadWithRepos]
  split <;> rfl

theorem dwr_no_raise {inp : FlowInput} {baseDir : String} {repos : List Repo}
    {indices : List Int}
    (h : (download_selected_repos inp.cloneExit inp.cloneCreates repos indices
        baseDir inp.fs).raised = false) :
    downloadWithRepos inp baseDir repos (some indices) =
      ⟨(if (update_gitignore inp.inWorkTree inp.relPath inp.ignoreContent).2
          then [Event.ignoreUpdated (inp.relPath ++ "/")] else []) ++
        (download_selected_repos inp.cloneExit inp.cloneCreates repos indices
          baseDir inp.fs).events ++
        [.summary indices.length baseDir], 0, some indices,
        (download_selected_repos inp.cloneExit inp.cloneCreates repos indices
          baseDir inp.fs).fs,
        (update_gitignore inp.inWorkTree inp.relPath inp.ignoreContent).1⟩ := by
  rw [downloadWithRepos]
  simp [h]

theorem string_append_empty (s : String) : s ++ "" = s :=
  string_data_inj (by rw [string_data_append]; exact List.append_nil _)

theorem containsSub_nil (pat : List Char) (h : pat ≠ []) : containsSub [] pat = false := by
  cases pat with
  | nil => exact absurd rfl h
  | cons c cs => rfl

theorem strContains_none_pattern (rp : String) : strContains "" (rp ++ "/") = false := by
  rw [strContains]
  apply containsSub_nil
  rw [string_data_append]
  intro hnil
  exact absurd (congrArg List.length hnil) (by simp)

/-- Claim C3 (amended): for a porcelain status query that exits zero with
output that is non-empty after stripping whitespace, update_repo returns
failure with a reason containing "uncommitted changes" and never invokes
the pull subcommand. -/
theorem c3_uncommitted_no_pull (out : String) (pull : Int × String)
    (h : pyStrip out ≠ "") :
    update_repo (.ok out) pull = ((false, "Repository has uncommitted changes"), false) ∧
    ∃ pre suf : String,
      "Repository has uncommitted changes" = pre ++ "uncommitted changes" ++ suf := by
  refine ⟨by simp [update_repo, h], "Repository has ", "", by decide⟩

/-- Counterexample to claim C3 as stated: raw porcelain output consisting
of a bare newline is non-empty, yet the code strips it to empty, reports
success, and does invoke the pull subcommand. -/
theorem c3_counterexample :
    ("\n" : String) ≠ "" ∧
    update_repo (.ok "\n") (0, "") = ((true, "Successfully updated"), true) :=
  ⟨by decide, by rfl⟩

/-- Witness for C3 at a concrete dirty-status output. -/
theorem c3_uncommitted_no_pull_witness :
    update_repo (.ok " M file.txt\n") (0, "") =
      ((false, "Repository has uncommitted changes"), false) :=
  (c3_uncommitted_no_pull " M file.txt\n" (0, "") (by decide)).1

/-- Claim C6: the status inspection returns the absent sentinel exactly
when one of the three version-control queries exits non-zero, and
otherwise a complete record assembled from the three stripped outputs
whose status field is always "clean"; it never returns an incomplete
result and never reports a status other than "clean" on success. -/
theorem c6_status_inspection (bq cq dq : Except Unit String) :
    (get_repo_status bq cq dq = none ↔
      bq = .error () ∨ cq = .error () ∨ dq = .error ()) ∧
    ∀ s, get_repo_status bq cq dq = some s →
      s.status = "clean" ∧ ∃ b c d, bq = .ok b ∧ cq = .ok c ∧ dq = .ok d ∧
        s = ⟨pyStrip b, pyStrip c, pyStrip d, "clean"⟩ := by
  cases bq <;> cases cq <;> cases dq <;> simp [get_repo_status]

/-- Witness for C6 at concrete query outcomes. -/
theorem c6_status_inspection_witness :
    get_repo_status (.ok "main\n") (.ok "abc1234") (.ok "2024-01-05") =
      some ⟨"main", "abc1234", "2024-01-05", "clean"⟩ ∧
    RepoStatus.status ⟨"main", "abc1234", "2024-01-05", "clean"⟩ = "clean" := by
  constructor
  · rfl
  · exact ((c6_status_inspection (.ok "main\n") (.ok "abc1234") (.ok "2024-01-05")).2
      ⟨"main", "abc1234", "2024-01-05", "clean"⟩ (by rfl)).1

/-- Claim C7: with the working directory under version control, the
ignore-file update is a no-op when the pattern (relative path plus
trailing separator) occurs anywhere in the content as a substring, even
inside an unrelated line; otherwise it appends the pattern as a line,
preceded by a newline exactly when the content is non-empty and does not
already end with one; the file is created when absent. -/
theorem c7_ignore_update (C rp : String) :
    (∀ pre suf : String, C = pre ++ (rp ++ "/") ++ suf →
      update_gitignore true rp (some C) = (some C, false)) ∧
    ((¬ ∃ pre suf : String, C = pre ++ (rp ++ "/") ++ suf) →
      C = "" ∨ (∃ w : String, C = w ++ "\n") →
      update_gitignore true rp (some C) = (some (C ++ (rp ++ "/") ++ "\n"), true)) ∧
    ((¬ ∃ pre suf : String, C = pre ++ (rp ++ "/") ++ suf) → C ≠ "" →
      (¬ ∃ w : String, C = w ++ "\n") →
      update_gitignore true rp (some C) = (some (C ++ "\n" ++ (rp ++ "/") ++ "\n"), true)) ∧
    update_gitignore true rp none = (some ((rp ++ "/") ++ "\n"), true) := by
  refine ⟨?_, ?_, ?_, ?_⟩
  · intro pre suf heq
    have hsc : strContains C (rp ++ "/") = true := (strContains_iff _ _).2 ⟨pre, suf, heq⟩
    simp [update_gitignore, hsc]
  · intro hno hCe
    have hfalse : strContains C (rp ++ "/") = false := by
      cases hsc : strContains C (rp ++ "/") with
      | false => rfl
      | true => exact absurd ((strContains_iff _ _).1 hsc) hno
    rcases hCe with rfl | ⟨w, rfl⟩
    · simp [update_gitignore, hfalse]
    · have hend : endsWithChar (w ++ "\n") '\n' = true :=
        (endsWithChar_nl_iff _).2 ⟨w, rfl⟩
      simp [update_gitignore, hfalse, hend]
  · intro hno hne hnend
    have hfalse : strContains C (rp ++ "/") = false := by
      cases hsc : strContains C (rp ++ "/") with
      | false => rfl
      | true => exact absurd ((strContains_iff _ _).1 hsc) hno
    have hendF : endsWithChar C '\n' = false := by
      cases hsc : endsWithChar C '\n' with
      | false => rfl
      | true => exact absurd ((endsWithChar_nl_iff _).1 hsc) hnend
    simp [update_gitignore, hfalse, hne, hendF]
  · simp [update_gitignore, strContains_none_pattern]

/-- Witness for C7: a contained pattern leaves the file unchanged; a
missing pattern is appended after a fresh newline. -/
theorem c7_ignore_update_witness :
    update_gitignore true "repos" (some "build/\nrepos/\n") =
      (some "build/\nrepos/\n", false) ∧
    update_gitignore true "repos" (some "build") = (some "build\nrepos/\n", true) := by
  constructor
  · exact (c7_ignore_update "build/\nrepos/\n" "repos").1 "build/\n" "\n" (by decide)
  · have h := (c7_ignore_update "build" "repos").2.2.1
      (fun hex => absurd ((strContains_iff _ _).2 hex) (by decide))
      (by decide)
      (fun hex => absurd ((endsWithChar_nl_iff _).2 hex) (by decide))
    simpa using h

theorem mem_update_list (entries : List DirEntry) (statusOf : String → Option RepoStatus)
    (n : String) :
    n ∈ ((repos_info entries statusOf).filter (fun p => p.2.isSome)).map (fun p => p.1) ↔
      (∃ e ∈ entries, e.isDir = true ∧ e.name = n) ∧ (statusOf n).isSome = true := by
  rw [List.mem_map]
  constructor
  · rintro ⟨⟨m, st⟩, hmem, rfl⟩
    rw [List.mem_filter] at hmem
    obtain ⟨hmem, hsome⟩ := hmem
    rw [repos_info, List.mem_map] at hmem
    obtain ⟨e, hmem2, heq⟩ := hmem
    rw [List.mem_filter] at hmem2
    obtain ⟨he, hdir⟩ := hmem2
    injection heq with h1 h2
    refine ⟨⟨e, he, hdir, h1⟩, ?_⟩
    rw [← h1, h2]
    simpa using hsome
  · rintro ⟨⟨e, he, hdir, rfl⟩, hsome⟩
    refine ⟨(e.name, statusOf e.name), ?_, rfl⟩
    rw [List.mem_filter]
    refine ⟨?_, by simpa using hsome⟩
    rw [repos_info, List.mem_map]
    exact ⟨e, List.mem_filter.mpr ⟨he, hdir⟩, rfl⟩

/-- Claim C10: the update flow passes exactly the base-directory entries
that are directories and whose status inspection succeeded to update_repo;
entries with the absent sentinel are never updated, and non-directory
entries never even enter the status table. -/
theorem c10_update_only_valid (confirm : Bool) (entries : List DirEntry)
    (statusOf : String → Option RepoStatus) (n : String) :
    (n ∈ update_all_repos confirm entries statusOf ↔
      confirm = true ∧ (∃ e ∈ entries, e.isDir = true ∧ e.name = n) ∧
        (statusOf n).isSome = true) ∧
    (n ∈ (repos_info entries statusOf).map Prod.fst ↔
      ∃ e ∈ entries, e.isDir = true ∧ e.name = n) := by
  constructor
  · cases confirm with
    | false => simp [update_all_repos]
    | true =>
      rw [update_all_repos, if_pos rfl, mem_update_list]
      constructor
      · rintro ⟨h1, h2⟩
        exact ⟨rfl, h1, h2⟩
      · rintro ⟨-, h1, h2⟩
        exact ⟨h1, h2⟩
  · rw [repos_info, List.map_map, List.mem_map]
    constructor
    · rintro ⟨e, he, heq⟩
      rw [List.mem_filter] at he
      exact ⟨e, he.1, he.2, heq⟩
    · rintro ⟨e, he, hdir, heq⟩
      exact ⟨e, List.mem_filter.mpr ⟨he, hdir⟩, heq⟩

/-- Witness for C10 at a concrete directory listing. -/
theorem c10_update_only_valid_witness :
    "a" ∈ update_all_repos true [⟨"a", true⟩, ⟨"b", false⟩]
      (fun _ => some ⟨"main", "c0", "2024-01-05", "clean"⟩) :=
  ((c10_update_only_valid true [⟨"a", true⟩, ⟨"b", false⟩]
      (fun _ => some ⟨"main", "c0", "2024-01-05", "clean"⟩) "a").1).mpr
    ⟨rfl, ⟨⟨"a", true⟩, by simp, rfl, rfl⟩, rfl⟩

/-- Claim C8: the clone step never inspects the clone subcommand's exit
status — its entire outcome is independent of the exit-status oracle — and
for a valid selection the loop completes over all selected items, one
clone or skip event per item, producing no per-repository error event. -/
theorem c8_exit_status_ignored (ce1 ce2 : String → String → Int)
    (cc : String → String → Bool) (repos : List Repo) (base : String)
    (idxs : List Int) (fs : List String) :
    download_selected_repos ce1 cc repos idxs base fs =
      download_selected_repos ce2 cc repos idxs base fs ∧
    ((∀ i ∈ idxs, 1 ≤ i ∧ i ≤ (repos.length : Int)) →
      (download_selected_repos ce1 cc repos idxs base fs).raised = false ∧
      (download_selected_repos ce1 cc repos idxs base fs).events.length = idxs.length ∧
      ∀ e ∈ (download_selected_repos ce1 cc repos idxs base fs).events,
        (∃ u d, e = Event.cloneInvoked u d) ∨ ∃ n, e = Event.skipNotice n) := by
  refine ⟨dsr_cloneExit_irrel ce1 ce2 cc repos base idxs fs, ?_⟩
  intro hvalid
  have hsome : ∀ i ∈ idxs, ∃ r, pyGet repos (i - 1) = some r := fun i hi =>
    pyGet_pos repos i (hvalid i hi).1 (hvalid i hi).2
  obtain ⟨h1, h2⟩ := dsr_complete ce1 cc repos base idxs fs hsome
  exact ⟨h1, h2, dsr_event_kinds ce1 cc repos base idxs fs⟩

/-- Witness for C8 at a concrete selection and two different exit-status
oracles. -/
theorem c8_exit_status_ignored_witness :
    (download_selected_repos (fun _ _ => 0) (fun _ _ => true)
      [⟨"r", "u"⟩] [1] "b" []).events.length = 1 :=
  ((c8_exit_status_ignored (fun _ _ => 0) (fun _ _ => 1) (fun _ _ => true)
    [⟨"r", "u"⟩] "b" [1] []).2 (by decide)).2.1

/-- Counterexample to claim C5 as stated: with selection [1, 1] over one
repository and a clone that creates its target directory, the duplicated
index is skipped on its second occurrence, so no duplicate clone is
invoked — one clone, not two. -/
theorem c5_counterexample :
    (download_selected_repos (fun _ _ => 0) (fun _ _ => true)
        [⟨"r", "u"⟩] [1, 1] "b" []).events =
      [Event.cloneInvoked "u" "b/r", Event.skipNotice "r"] ∧
    countClones (download_selected_repos (fun _ _ => 0) (fun _ _ => true)
        [⟨"r", "u"⟩] [1, 1] "b" []).events = 1 :=
  ⟨rfl, rfl⟩

/-- Claim C5 (amended): the clone step walks the selection in order, one
event per selected index; for each index the event is a skip notice when
the target directory exists at that point of the run (including when an
earlier clone of the same run created it), and otherwise a clone
invocation with the record's clone URL and target path.  A duplicated
index therefore re-invokes the clone only when the earlier invocation did
not create the target directory. -/
theorem c5_per_index (ce : String → String → Int) (cc : String → String → Bool)
    (repos : List Repo) (base : String) (idxs : List Int) (fs : List String)
    (hvalid : ∀ i ∈ idxs, 1 ≤ i ∧ i ≤ (repos.length : Int)) :
    (download_selected_repos ce cc repos idxs base fs).raised = false ∧
    (download_selected_repos ce cc repos idxs base fs).events.length = idxs.length ∧
    ∀ k, k < idxs.length →
      ∃ i repo, idxs[k]? = some i ∧ pyGet repos (i - 1) = some repo ∧
        (download_selected_repos ce cc repos idxs base fs).events[k]? =
          some (if joinPath base repo.name ∈
              (download_selected_repos ce cc repos (idxs.take k) base fs).fs
            then Event.skipNotice repo.name
            else Event.cloneInvoked repo.clone_url (joinPath base repo.name)) := by
  have hsome : ∀ i ∈ idxs, ∃ r, pyGet repos (i - 1) = some r := fun i hi =>
    pyGet_pos repos i (hvalid i hi).1 (hvalid i hi).2
  obtain ⟨h1, h2⟩ := dsr_complete ce cc repos base idxs fs hsome
  refine ⟨h1, h2, ?_⟩
  intro k hk
  have hsome1 : ∀ i ∈ idxs.take k, ∃ r, pyGet repos (i - 1) = some r :=
    fun i hi => hsome i (List.take_subset k idxs hi)
  have happ := dsr_append ce cc repos base (idxs.take k) (idxs.drop k) fs hsome1
  rw [List.take_append_drop] at happ
  have hlen1 : (download_selected_repos ce cc repos (idxs.take k) base fs).events.length = k := by
    rw [(dsr_complete ce cc repos base (idxs.take k) fs hsome1).2, List.length_take]
    omega
  have hkmem : idxs[k] ∈ idxs := List.getElem_mem hk
  obtain ⟨repo, hrepo⟩ := hsome _ hkmem
  have hdrop : idxs.drop k = idxs[k] :: idxs.drop (k + 1) := List.drop_eq_getElem_cons hk
  refine ⟨idxs[k], repo, List.getElem?_eq_getElem hk, hrepo, ?_⟩
  rw [happ]
  show ((download_selected_repos ce cc repos (idxs.take k) base fs).events ++
      (download_selected_repos ce cc repos (idxs.drop k) base
        (download_selected_repos ce cc repos (idxs.take k) base fs).fs).events)[k]? = _
  rw [List.getElem?_append_right (by omega), hlen1, Nat.sub_self, hdrop]
  by_cases hc : joinPath base repo.name ∈
      (download_selected_repos ce cc repos (idxs.take k) base fs).fs
  · rw [dsr_cons_skip hrepo hc]
    simp [hc]
  · rw [dsr_cons_clone hrepo hc]
    simp [hc]

/-- Witness for C5 at a concrete valid selection. -/
theorem c5_per_index_witness :
    (download_selected_repos (fun _ _ => 0) (fun _ _ => true)
      [⟨"r", "u"⟩] [1, 1] "b" []).raised = false :=
  (c5_per_index (fun _ _ => 0) (fun _ _ => true) [⟨"r", "u"⟩] "b" [1, 1] []
    (by decide)).1

/-- Claim C4: running the clone step twice with the same valid selection
and base directory, starting from a filesystem without any of the target
directories and with clones that create their targets, results in exactly
one clone invocation per selected repository over the two runs: the
second run emits only skip notices and invokes no clone. -/
theorem c4_idempotent (ce : String → String → Int) (cc : String → String → Bool)
    (repos : List Repo) (base : String) (idxs : List Int) (fs : List String)
    (hcc : ∀ u d, cc u d = true)
    (hvalid : ∀ i ∈ idxs, 1 ≤ i ∧ i ≤ (repos.length : Int))
    (hfresh : ∀ i ∈ idxs, ∀ repo, pyGet repos (i - 1) = some repo →
      joinPath base repo.name ∉ fs) :
    (∀ e ∈ (download_selected_repos ce cc repos idxs base
        (download_selected_repos ce cc repos idxs base fs).fs).events,
      ∃ n, e = Event.skipNotice n) ∧
    countClones (download_selected_repos ce cc repos idxs base
        (download_selected_repos ce cc repos idxs base fs).fs).events = 0 ∧
    ∀ i ∈ idxs, ∀ repo, pyGet repos (i - 1) = some repo →
      countCloneDir (joinPath base repo.name)
        ((download_selected_repos ce cc repos idxs base fs).events ++
          (download_selected_repos ce cc repos idxs base
            (download_selected_repos ce cc repos idxs base fs).fs).events) = 1 := by
  have hsome : ∀ i ∈ idxs, ∃ r, pyGet repos (i - 1) = some r := fun i hi =>
    pyGet_pos repos i (hvalid i hi).1 (hvalid i hi).2
  have htargets := dsr_targets ce cc repos base hcc idxs fs hsome
  have hall2 : ∀ i ∈ idxs, ∃ repo, pyGet repos (i - 1) = some repo ∧
      joinPath base repo.name ∈ (download_selected_repos ce cc repos idxs base fs).fs :=
    fun i hi => by
      obtain ⟨r, hr⟩ := hsome i hi
      exact ⟨r, hr, htargets i hi r hr⟩
  obtain ⟨hfs2, hr2, hskips⟩ :=
    dsr_all_mem ce cc repos base idxs
      (download_selected_repos ce cc repos idxs base fs).fs hall2
  refine ⟨hskips, countClones_of_skips _ hskips, ?_⟩
  intro i hi repo hrepo
  rw [countCloneDir_append, countCloneDir_of_skips _ _ hskips,
    countCloneDir_eq_count]
  obtain ⟨hnd, hmemspec⟩ := dsr_clone_spec ce cc repos base hcc idxs fs
  have htin : joinPath base repo.name ∈
      cloneDirs (download_selected_repos ce cc repos idxs base fs).events := by
    have hfin := htargets i hi repo hrepo
    rcases dsr_fs_mem ce cc repos base idxs fs _ hfin with hin | hin
    · exact absurd hin (hfresh i hi repo hrepo)
    · exact hin
  rw [List.count_eq_one_of_mem hnd htin]

/-- Witness for C4 at a concrete fresh run. -/
theorem c4_idempotent_witness :
    countClones (download_selected_repos (fun _ _ => 0) (fun _ _ => true)
        [⟨"a", "u"⟩] [1] "b"
        (download_selected_repos (fun _ _ => 0) (fun _ _ => true)
          [⟨"a", "u"⟩] [1] "b" []).fs).events = 0 :=
  (c4_idempotent (fun _ _ => 0) (fun _ _ => true) [⟨"a", "u"⟩] "b" [1] []
    (fun _ _ => rfl) (by decide) (fun _ _ _ _ => List.not_mem_nil _)).2.1

/-- Claim C1: on a successful non-empty listing, when the operator declines
the download-all confirmation and enters a selection in which some token
fails to parse as an integer or some parsed integer lies outside [1, N],
the flow reports the invalid selection and aborts: zero clone invocations,
no ignore-file update, no filesystem change. -/
theorem c1_invalid_selection_aborts (inp : FlowInput) (repos : List Repo)
    (hmk : inp.mkdirOk = true) (hl : inp.listing = .success repos)
    (hne : repos ≠ []) (hconf : inp.confirmAll = false)
    (hbad : parse_selection inp.selection = none ∨
      ∃ l, parse_selection inp.selection = some l ∧
        ∃ i ∈ l, ¬(1 ≤ i ∧ i ≤ (repos.length : Int))) :
    (download_all_repos inp).events = [Event.invalidSelection] ∧
    countClones (download_all_repos inp).events = 0 ∧
    (download_all_repos inp).ignore = inp.ignoreContent ∧
    (download_all_repos inp).fs = inp.fs ∧
    (download_all_repos inp).exitCode = 0 := by
  have hsel := select_indices_none_of inp.selection repos.length hbad
  rw [download_all_repos_ok hmk, hl, dwl_success_nonempty hne, hconf,
    if_neg Bool.false_ne_true, hsel, dwr_none]
  exact ⟨rfl, rfl, rfl, rfl, rfl⟩

/-- Witness for C1 at a concrete out-of-range selection. -/
theorem c1_invalid_selection_aborts_witness :
    (download_all_repos ⟨"alice", "/s", true, .success [⟨"r", "u"⟩], false, "2", true,
        "rel", none, [], fun _ _ => 0, fun _ _ => true⟩).events =
      [Event.invalidSelection] :=
  (c1_invalid_selection_aborts _ [⟨"r", "u"⟩] rfl rfl (by decide) rfl
    (Or.inr ⟨[2], by decide, 2, by decide, by decide⟩)).1

/-- Claim C2: on a successful non-empty listing, answering yes to the
download-all confirmation produces exactly the selection 1, 2, ..., N in
listing order. -/
theorem c2_all_selection (inp : FlowInput) (repos : List Repo)
    (hmk : inp.mkdirOk = true) (hl : inp.listing = .success repos)
    (hne : repos ≠ []) (hconf : inp.confirmAll = true) :
    ∃ sel, (download_all_repos inp).selected = some sel ∧
      sel.length = repos.length ∧
      ∀ k, k < repos.length → sel[k]? = some ((k : Int) + 1) := by
  rw [download_all_repos_ok hmk, hl, dwl_success_nonempty hne, hconf, if_pos rfl]
  exact ⟨allIndices repos.length, dwr_selected, allIndices_length _,
    fun k hk => allIndices_getElem _ k hk⟩

/-- Witness for C2 at a concrete two-repository listing. -/
theorem c2_all_selection_witness :
    (download_all_repos ⟨"alice", "/s", true, .success [⟨"r", "u"⟩, ⟨"q", "v"⟩], true, "",
        false, "rel", none, [], fun _ _ => 0, fun _ _ => true⟩).selected =
      some [1, 2] := by
  obtain ⟨sel, hsel, hlen, hget⟩ :=
    c2_all_selection ⟨"alice", "/s", true, .success [⟨"r", "u"⟩, ⟨"q", "v"⟩], true, "",
      false, "rel", none, [], fun _ _ => 0, fun _ _ => true⟩
      [⟨"r", "u"⟩, ⟨"q", "v"⟩] rfl rfl (by decide) rfl
  have h0 := hget 0 (by decide)
  have h1 := hget 1 (by decide)
  have hsel2 : sel = [1, 2] := by
    cases sel with
    | nil => simp at hlen
    | cons a t =>
      cases t with
      | nil => simp at hlen
      | cons b t2 =>
        cases t2 with
        | nil =>
          simp at h0 h1
          rw [h0, h1]
        | cons c t3 => simp at hlen
  rw [hsel, hsel2]

/-- Claim C9 (amended): account-not-found (HTTP 404) prints a
user-not-found error and exits 1; any other listing failure and
directory-creation failure also exit 1; a successful listing always exits
0 — with a completion summary when the download step ran (yes-confirmation
or a valid selection), and with only an error or notice and no summary on
the invalid-selection and empty-listing paths. -/
theorem c9_exit_behaviour (inp : FlowInput) :
    (inp.mkdirOk = false → (download_all_repos inp).exitCode = 1) ∧
    (∀ code, inp.mkdirOk = true → inp.listing = .httpError code →
      (download_all_repos inp).exitCode = 1 ∧
      (code = 404 → Event.notFoundError inp.username ∈ (download_all_repos inp).events)) ∧
    (inp.mkdirOk = true → inp.listing = .otherError →
      (download_all_repos inp).exitCode = 1) ∧
    (∀ repos, inp.mkdirOk = true → inp.listing = .success repos → repos ≠ [] →
      inp.confirmAll = true →
      (download_all_repos inp).exitCode = 0 ∧
      Event.summary repos.length (joinPath inp.savePath inp.username) ∈
        (download_all_repos inp).events) ∧
    (∀ repos l, inp.mkdirOk = true → inp.listing = .success repos → repos ≠ [] →
      inp.confirmAll = false → select_indices inp.selection repos.length = some l →
      (download_all_repos inp).exitCode = 0 ∧
      Event.summary l.length (joinPath inp.savePath inp.username) ∈
        (download_all_repos inp).events) ∧
    (∀ repos, inp.mkdirOk = true → inp.listing = .success repos → repos ≠ [] →
      inp.confirmAll = false → select_indices inp.selection repos.length = none →
      (download_all_repos inp).exitCode = 0 ∧
      (download_all_repos inp).events = [Event.invalidSelection]) ∧
    (inp.mkdirOk = true → inp.listing = .success [] →
      (download_all_repos inp).exitCode = 0 ∧
      (download_all_repos inp).events = [Event.noRepos inp.username]) := by
  refine ⟨?_, ?_, ?_, ?_, ?_, ?_, ?_⟩
  · intro h
    rw [download_all_repos_mkdir_fail h]
  · intro code hmk hl
    rw [download_all_repos_ok hmk, hl]
    constructor
    · by_cases hcode : code = 404 <;> simp [downloadWithListing, hcode]
    · intro hcode
      subst hcode
      simp [downloadWithListing]
  · intro hmk hl
    rw [download_all_repos_ok hmk, hl]
    rfl
  · intro repos hmk hl hne hconf
    rw [download_all_repos_ok hmk, hl, dwl_success_nonempty hne, hconf, if_pos rfl]
    have hvalid := allIndices_mem repos.length
    have hsome : ∀ i ∈ allIndices repos.length, ∃ r, pyGet repos (i - 1) = some r :=
      fun i hi => pyGet_pos repos i (hvalid i hi).1 (hvalid i hi).2
    have hra := (dsr_complete inp.cloneExit inp.cloneCreates repos
      (joinPath inp.savePath inp.username) (allIndices repos.length) inp.fs hsome).1
    rw [dwr_no_raise hra]
    refine ⟨rfl, ?_⟩
    simp [allIndices_length]
  · intro repos l hmk hl hne hconf hsel
    rw [download_all_repos_ok hmk, hl, dwl_success_nonempty hne, hconf,
      if_neg Bool.false_ne_true, hsel]
    have hvalid := select_indices_sound inp.selection repos.length l hsel
    have hsome : ∀ i ∈ l, ∃ r, pyGet repos (i - 1) = some r :=
      fun i hi => pyGet_pos repos i (hvalid i hi).1 (hvalid i hi).2
    have hra := (dsr_complete inp.cloneExit inp.cloneCreates repos
      (joinPath inp.savePath inp.username) l inp.fs hsome).1
    rw [dwr_no_raise hra]
    refine ⟨rfl, ?_⟩
    simp
  · intro repos hmk hl hne hconf hsel
    rw [download_all_repos_ok hmk, hl, dwl_success_nonempty hne, hconf,
      if_neg Bool.false_ne_true, hsel, dwr_none]
    exact ⟨rfl, rfl⟩
  · intro hmk hl
    rw [download_all_repos_ok hmk, hl]
    exact ⟨rfl, rfl⟩

/-- Counterexample to claim C9 as stated: with a successful listing and an
unparseable selection the flow exits 0 but prints no completion summary,
so "otherwise the flow exits 0 after printing a completion summary" fails
on the invalid-selection path. -/
theorem c9_counterexample :
    (download_all_repos ⟨"alice", "/s", true, .success [⟨"r", "u"⟩], false, "abc", true,
        "rel", none, [], fun _ _ => 0, fun _ _ => true⟩).exitCode = 0 ∧
    (download_all_repos ⟨"alice", "/s", true, .success [⟨"r", "u"⟩], false, "abc", true,
        "rel", none, [], fun _ _ => 0, fun _ _ => true⟩).events =
      [Event.invalidSelection] :=
  ⟨rfl, rfl⟩

/-- Witness for C9 at a concrete 404 listing failure. -/
theorem c9_exit_behaviour_witness :
    (download_all_repos ⟨"ghost", "/s", true, .httpError 404, true, "", false, "rel",
        none, [], fun _ _ => 0, fun _ _ => true⟩).exitCode = 1 :=
  ((c9_exit_behaviour ⟨"ghost", "/s", true, .httpError 404, true, "", false, "rel",
      none, [], fun _ _ => 0, fun _ _ => true⟩).2.1 404 rfl rfl).1
